import Mathlib

/-!
Shallow embedding of the epidemic-replication simulator
(`model.py`, `replica.py`, `rumor.py`, `anti_entropy.py`,
`dissemination.py`, `metrics.py`).

Conventions of the embedding:
* Python `int` counters become `Nat` where the code only increments from 0
  (`ops_applied`, `ops_received`, `ops_sent`, seen-hit counters) and `Int`
  where a caller-supplied value is stored (rumor budgets).
* Python dicts that the code iterates in insertion order
  (`active_rumors`, `rumor_already_seen_hits`, `op_index`, the stores fed
  to `residue`) become association lists without duplicate keys, with
  `alGet` / `alSet` / `alPop` mirroring `d.get`, `d[k] = v`, `d.pop(k, None)`.
* The key-value store of a `Replica` is modelled extensionally as
  `String → Option (Record V)`: the only dict operations `apply`,
  `on_receive` and the RECORDS merge perform on it are `get` and item
  assignment, and Python dict equality is key-wise.
* The opaque Python value type (`Any`) is a type parameter `V`;
  `None` becomes `Option.none`, so record/operation values are `Option V`.
* A raised `ValueError` is modelled by returning `Option.none` from the
  function; the per-replica RNG and the network queue are not part of the
  replica state the claims mention and are omitted (peer choice and message
  drop never change the sender's store, dedup set or rumor maps; sends are
  accounted by the `ops_sent` counter exactly as the code increments it).
-/

/-- `model.Timestamp`: a pair `(counter, replica_id)`. -/
structure Timestamp where
  counter : Nat
  replica_id : String
deriving DecidableEq, Repr

/-- Python `@dataclass(order=True)` comparison: lexicographic on
`(counter, replica_id)`. -/
def Timestamp.lt (a b : Timestamp) : Prop :=
  a.counter < b.counter ∨ (a.counter = b.counter ∧ a.replica_id < b.replica_id)

instance : LT Timestamp := ⟨Timestamp.lt⟩

instance (a b : Timestamp) : Decidable (a < b) := by
  change Decidable (Timestamp.lt a b)
  unfold Timestamp.lt
  infer_instance

/-- Non-strict order on timestamps, used only in statements. -/
def Timestamp.le (a b : Timestamp) : Prop := a = b ∨ a < b

instance : LE Timestamp := ⟨Timestamp.le⟩

instance (a b : Timestamp) : Decidable (a ≤ b) := by
  change Decidable (Timestamp.le a b)
  unfold Timestamp.le
  infer_instance

theorem Timestamp.lt_trans {a b c : Timestamp} (h1 : a < b) (h2 : b < c) : a < c := by
  rcases h1 with h1 | ⟨e1, h1⟩ <;> rcases h2 with h2 | ⟨e2, h2⟩
  · exact Or.inl (Nat.lt_trans h1 h2)
  · exact Or.inl (e2 ▸ h1)
  · exact Or.inl (e1 ▸ h2)
  · exact Or.inr ⟨e1.trans e2, h1.trans h2⟩

theorem Timestamp.lt_irrefl (a : Timestamp) : ¬ a < a := by
  rintro (h | ⟨_, h⟩)
  · exact Nat.lt_irrefl _ h
  · exact (lt_self_iff_false _).mp h

theorem Timestamp.lt_asymm {a b : Timestamp} (h : a < b) : ¬ b < a :=
  fun h2 => Timestamp.lt_irrefl a (Timestamp.lt_trans h h2)

theorem Timestamp.le_refl (a : Timestamp) : a ≤ a := Or.inl rfl

theorem Timestamp.le_of_lt {a b : Timestamp} (h : a < b) : a ≤ b := Or.inr h

theorem Timestamp.le_trans {a b c : Timestamp} (h1 : a ≤ b) (h2 : b ≤ c) : a ≤ c := by
  rcases h1 with rfl | h1
  · exact h2
  · rcases h2 with rfl | h2
    · exact Or.inr h1
    · exact Or.inr (Timestamp.lt_trans h1 h2)

/-- `model.Record`: the stored value for a key. `value` is `null` exactly
for tombstones in practice; the type allows any `Option V`. -/
structure Record (V : Type) where
  value : Option V
  deleted : Bool
  ts : Timestamp
deriving DecidableEq, Repr

/-- `model.Operation`: an immutable update request. `op` is the kind
string (`"SET"` or `"DEL"` in well-formed workloads, but any string can
arrive, which is what `replica.apply`'s error branch is for). -/
structure Operation (V : Type) where
  op_id : String
  op : String
  key : String
  value : Option V
  ts : Timestamp
  origin : String
deriving DecidableEq, Repr

/-- Association-list model of Python `dict.get(k)` (also `k in d`). -/
def alGet {α : Type} : List (String × α) → String → Option α
  | [], _ => none
  | (k2, v) :: rest, k => if k2 = k then some v else alGet rest k

/-- Association-list model of `d[k] = v`: update in place, else append
(Python dicts keep the insertion position of an updated key). -/
def alSet {α : Type} : List (String × α) → String → α → List (String × α)
  | [], k, v => [(k, v)]
  | (k2, w) :: rest, k, v =>
      if k2 = k then (k2, v) :: rest else (k2, w) :: alSet rest k v

/-- Association-list model of `d.pop(k, None)` (the state effect). -/
def alPop {α : Type} : List (String × α) → String → List (String × α)
  | [], _ => []
  | (k2, w) :: rest, k => if k2 = k then rest else (k2, w) :: alPop rest k

/-- Extensional store update: `store[key] = rec`. -/
def storeSet {V : Type} (s : String → Option (Record V)) (k : String)
    (r : Record V) : String → Option (Record V) :=
  fun k2 => if k2 = k then some r else s k2

/-- `replica.Replica`: the per-replica mutable state (minus its RNG,
which no claim concerns). -/
structure Replica (V : Type) where
  id : String
  store : String → Option (Record V)
  seen_ops : List String
  active_rumors : List (String × Int)
  rumor_already_seen_hits : List (String × Nat)
  ops_applied : Nat
  ops_received : Nat
  ops_sent : Nat

/-- `Replica.apply`: LWW merge with tombstones. `none` models the
`ValueError` raised on an unknown kind; note the code checks the kind
only inside the "newer" branch. -/
def Replica.apply {V : Type} [DecidableEq V] (r : Replica V) (op : Operation V) :
    Option (Replica V × Bool) :=
  match r.store op.key with
  | none =>
      if op.op = "SET" then
        some ({ r with store := storeSet r.store op.key ⟨op.value, false, op.ts⟩,
                       ops_applied := r.ops_applied + 1 }, true)
      else if op.op = "DEL" then
        some ({ r with store := storeSet r.store op.key ⟨none, true, op.ts⟩,
                       ops_applied := r.ops_applied + 1 }, true)
      else none
  | some cur =>
      if cur.ts < op.ts then
        if op.op = "SET" then
          some ({ r with store := storeSet r.store op.key ⟨op.value, false, op.ts⟩,
                         ops_applied := r.ops_applied + 1 }, true)
        else if op.op = "DEL" then
          some ({ r with store := storeSet r.store op.key ⟨none, true, op.ts⟩,
                         ops_applied := r.ops_applied + 1 }, true)
        else none
      else some (r, false)

/-- `Replica.on_receive`: dedup by `op_id`, then `apply`.
Returns `(state, was_new, changed)`. -/
def Replica.on_receive {V : Type} [DecidableEq V] (r : Replica V) (op : Operation V) :
    Option (Replica V × Bool × Bool) :=
  let r1 : Replica V := { r with ops_received := r.ops_received + 1 }
  if op.op_id ∈ r1.seen_ops then some (r1, false, false)
  else
    let r2 : Replica V := { r1 with seen_ops := op.op_id :: r1.seen_ops }
    match r2.apply op with
    | none => none
    | some (r3, changed) => some (r3, true, changed)

/-- `Replica.activate_rumor`: start a rumor unless already active. -/
def Replica.activate_rumor {V : Type} (r : Replica V) (op_id : String)
    (budget : Int) : Replica V :=
  if (alGet r.active_rumors op_id).isSome then r
  else
    { r with active_rumors := alSet r.active_rumors op_id budget,
             rumor_already_seen_hits := alSet r.rumor_already_seen_hits op_id 0 }

/-- The ACK branch shared by `rumor.RumorMongering.handle_message` and
`dissemination.Dissemination.handle_message`: on status `"SEEN"` it does
`rumor_already_seen_hits[op_id] = rumor_already_seen_hits.get(op_id, 0) + 1`
(with no check that `op_id` is still an active rumor); any other status
leaves the replica unchanged. -/
def Replica.handleAck {V : Type} (r : Replica V) (op_id status : String) :
    Replica V :=
  if status = "SEEN" then
    { r with rumor_already_seen_hits :=
        (alSet r.rumor_already_seen_hits op_id
          ((alGet r.rumor_already_seen_hits op_id).getD 0 + 1)) }
  else r

/-- One `(key, rec)` item of the RECORDS branch of
`anti_entropy.AntiEntropy.handle_message` and
`dissemination.Dissemination.handle_message`: overwrite if absent or
strictly newer, bumping `ops_applied`. -/
def Replica.mergeRecord {V : Type} (r : Replica V) (k : String)
    (rec : Record V) : Replica V :=
  match r.store k with
  | none => { r with store := storeSet r.store k rec,
                     ops_applied := r.ops_applied + 1 }
  | some cur =>
      if cur.ts < rec.ts then
        { r with store := storeSet r.store k rec,
                 ops_applied := r.ops_applied + 1 }
      else r

/-- The whole RECORDS branch: merge the listed items in order. -/
def Replica.handleRecords {V : Type} (r : Replica V)
    (items : List (String × Record V)) : Replica V :=
  items.foldl (fun acc p => acc.mergeRecord p.1 p.2) r

/-- The DIGEST branch's effect on the receiving replica's state: it only
sends back a RECORDS response (`ops_sent += 1`); the store and all rumor
state are untouched. -/
def Replica.handleDigest {V : Type} (r : Replica V) : Replica V :=
  { r with ops_sent := r.ops_sent + 1 }

/-- The body of the rumor tick loop of `rumor.RumorMongering.tick` /
`dissemination.Dissemination.rumor_tick` for one `op_id` of the key
snapshot: retire if the budget is exhausted or the op is unindexed,
otherwise send to `fanout` peers, decrement the budget, and retire early
once the seen-hit counter reaches `threshold`.  The `none` fallback is
unreachable: the loop iterates over a snapshot of the keys and each
iteration pops at most its own key, so the looked-up key is present. -/
def tickOne {V : Type} (opIndex : List (String × Operation V))
    (fanout threshold : Nat) (r : Replica V) (op_id : String) : Replica V :=
  match alGet r.active_rumors op_id with
  | none => r
  | some budget =>
      if budget ≤ 0 then
        { r with active_rumors := alPop r.active_rumors op_id,
                 rumor_already_seen_hits := alPop r.rumor_already_seen_hits op_id }
      else
        match alGet opIndex op_id with
        | none =>
            { r with active_rumors := alPop r.active_rumors op_id,
                     rumor_already_seen_hits := alPop r.rumor_already_seen_hits op_id }
        | some _ =>
            let r1 : Replica V :=
              { r with ops_sent := r.ops_sent + fanout,
                       active_rumors := alSet r.active_rumors op_id (budget - 1) }
            if threshold ≤ (alGet r1.rumor_already_seen_hits op_id).getD 0 then
              { r1 with active_rumors := alPop r1.active_rumors op_id,
                        rumor_already_seen_hits := alPop r1.rumor_already_seen_hits op_id }
            else r1

/-- `rumor.RumorMongering.tick`: when there is at least one peer, run the
loop body over the snapshot of active rumor ids. -/
def Replica.rumorTick {V : Type} (r : Replica V)
    (opIndex : List (String × Operation V)) (fanout threshold : Nat)
    (hasPeers : Bool) : Replica V :=
  if hasPeers then (r.active_rumors.map Prod.fst).foldl (tickOne opIndex fanout threshold) r
  else r

/-- A replica together with the global `op_index`, the state the rumor
protocol steps act on. -/
structure RState (V : Type) where
  rep : Replica V
  opIndex : List (String × Operation V)

/-- The OP branch of the rumor/dissemination message handler:
`on_receive`, send an ACK (`ops_sent += 1`), and if the op was new,
index it (if not yet indexed) and activate the rumor with the configured
budget `B`. -/
def handleOpMsg {V : Type} [DecidableEq V] (B : Int) (s : RState V)
    (op : Operation V) : Option (RState V) :=
  match s.rep.on_receive op with
  | none => none
  | some (r1, wasNew, _) =>
      let r2 : Replica V := { r1 with ops_sent := r1.ops_sent + 1 }
      if wasNew then
        let idx :=
          if (alGet s.opIndex op.op_id).isSome then s.opIndex
          else alSet s.opIndex op.op_id op
        some ⟨r2.activate_rumor op.op_id B, idx⟩
      else some ⟨r2, s.opIndex⟩

/-- The scheduler's injection of a workload op at its origin
(`simulate.main`, step 1): `on_receive`; if new, `op_index[op_id] = op`
and, under the rumor algorithm, `activate_rumor(op_id, B)`. -/
def injectOp {V : Type} [DecidableEq V] (B : Int) (s : RState V)
    (op : Operation V) : Option (RState V) :=
  match s.rep.on_receive op with
  | none => none
  | some (r1, wasNew, _) =>
      if wasNew then
        some ⟨r1.activate_rumor op.op_id B, alSet s.opIndex op.op_id op⟩
      else some ⟨r1, s.opIndex⟩

/-- A store as fed to `metrics.residue` (a dict of key to record). -/
abbrev StoreL (V : Type) := List (String × Record V)

/-- The comparison tuple of `metrics.residue`:
`(r.deleted, r.value, (r.ts.counter, r.ts.replica_id))`. -/
def recTuple {V : Type} (r : Record V) : Bool × Option V × Nat × String :=
  (r.deleted, r.value, r.ts.counter, r.ts.replica_id)

/-- The inner loop of `metrics.residue` for one key, returning the final
`same` flag. `baseline` is the Python variable: it is `None` both before
any tuple was recorded and after recording the tuple of a replica at
which the key is absent — the code uses the single value `None` for
both, so `Option.none` models both here. -/
def rowSame {V : Type} [DecidableEq V] (k : String) :
    Option (Bool × Option V × Nat × String) → List (StoreL V) → Bool
  | _, [] => true
  | baseline, st :: rest =>
      let tup := (alGet st k).map recTuple
      match baseline with
      | none => rowSame k tup rest
      | some b => if tup = some b then rowSame k (some b) rest else false

/-- Union of the key sets of the stores, each key once (Python builds a
`set`; only the count of keys matters downstream). -/
def unionKeys {V : Type} (sts : List (StoreL V)) : List String :=
  ((sts.map (fun st => st.map Prod.fst)).flatten).dedup

/-- `metrics.residue`: the number of keys of the union whose per-replica
tuples make the inner loop clear the `same` flag. -/
def residue {V : Type} [DecidableEq V] (sts : List (StoreL V)) : Nat :=
  match sts with
  | [] => 0
  | _ => (unionKeys sts).countP (fun k => !(rowSame k none sts))

/-- One rumor-protocol step on a replica plus the global op index.
Direct activations are restricted to a nonnegative budget and an op id
already present in the index, which is how the scheduler and the OP
handler invoke `activate_rumor` whenever the configured budget is
nonnegative. -/
inductive RStep {V : Type} [DecidableEq V] (B : Int) (fanout threshold : Nat) :
    RState V → RState V → Prop
  | activate (s : RState V) (op_id : String) (b : Int) (hb : 0 ≤ b)
      (hidx : (alGet s.opIndex op_id).isSome) :
      RStep B fanout threshold s ⟨s.rep.activate_rumor op_id b, s.opIndex⟩
  | tick (s : RState V) (hasPeers : Bool) :
      RStep B fanout threshold s
        ⟨s.rep.rumorTick s.opIndex fanout threshold hasPeers, s.opIndex⟩
  | opMsg (s s2 : RState V) (op : Operation V)
      (h : handleOpMsg B s op = some s2) : RStep B fanout threshold s s2
  | inject (s s2 : RState V) (op : Operation V)
      (h : injectOp B s op = some s2) : RStep B fanout threshold s s2
  | ack (s : RState V) (op_id status : String) :
      RStep B fanout threshold s ⟨s.rep.handleAck op_id status, s.opIndex⟩
  | digest (s : RState V) :
      RStep B fanout threshold s ⟨s.rep.handleDigest, s.opIndex⟩
  | records (s : RState V) (items : List (String × Record V)) :
      RStep B fanout threshold s ⟨s.rep.handleRecords items, s.opIndex⟩

/-- Reachability by rumor-protocol steps. -/
inductive RReach {V : Type} [DecidableEq V] (B : Int) (fanout threshold : Nat) :
    RState V → RState V → Prop
  | refl (s : RState V) : RReach B fanout threshold s s
  | step (s t u : RState V) : RReach B fanout threshold s t →
      RStep B fanout threshold t u → RReach B fanout threshold s u

/-- The spec's claimed rumor invariant: every active entry has a strictly
positive budget and an indexed operation. -/
def rumorInvStrict {V : Type} (s : RState V) : Prop :=
  ∀ p ∈ s.rep.active_rumors, 0 < p.2 ∧ (alGet s.opIndex p.1).isSome

/-- The invariant the code actually maintains: budgets are nonnegative
(an entry decremented to 0 stays until the next tick retires it). -/
def rumorInv {V : Type} (s : RState V) : Prop :=
  ∀ p ∈ s.rep.active_rumors, 0 ≤ p.2 ∧ (alGet s.opIndex p.1).isSome

theorem alGet_alSet_self {α : Type} (l : List (String × α)) (k : String) (v : α) :
    alGet (alSet l k v) k = some v := by
  induction l with
  | nil => simp [alSet, alGet]
  | cons p rest ih =>
      obtain ⟨k2, w⟩ := p
      by_cases h : k2 = k
      · simp [alSet, alGet, h]
      · simp [alSet, alGet, h, ih]

theorem alGet_alSet_ne {α : Type} (l : List (String × α)) {k k2 : String}
    (v : α) (h : k ≠ k2) : alGet (alSet l k v) k2 = alGet l k2 := by
  induction l with
  | nil => simp [alSet, alGet, h]
  | cons p rest ih =>
      obtain ⟨k3, w⟩ := p
      by_cases h3 : k3 = k
      · subst h3
        simp [alSet, alGet, h]
      · simp [alSet, alGet, h3, ih]

theorem alSet_mem {α : Type} {l : List (String × α)} {k : String} {v : α}
    {p : String × α} (h : p ∈ alSet l k v) : p ∈ l ∨ p = (k, v) := by
  induction l with
  | nil => simpa [alSet] using h
  | cons q rest ih =>
      obtain ⟨k3, w⟩ := q
      by_cases h3 : k3 = k
      · simp only [alSet, if_pos h3, List.mem_cons] at h
        rcases h with h | h
        · exact Or.inr (h.trans (by rw [h3]))
        · exact Or.inl (List.mem_cons_of_mem _ h)
      · simp only [alSet, if_neg h3, List.mem_cons] at h
        rcases h with h | h
        · exact Or.inl (by simp [h])
        · rcases ih h with h2 | h2
          · exact Or.inl (List.mem_cons_of_mem _ h2)
          · exact Or.inr h2

theorem alPop_subset {α : Type} {l : List (String × α)} {k : String}
    {p : String × α} (h : p ∈ alPop l k) : p ∈ l := by
  induction l with
  | nil => simp [alPop] at h
  | cons q rest ih =>
      obtain ⟨k3, w⟩ := q
      by_cases h3 : k3 = k
      · simp only [alPop, if_pos h3] at h
        exact List.mem_cons_of_mem _ h
      · simp only [alPop, if_neg h3, List.mem_cons] at h
        rcases h with h | h
        · exact h ▸ List.mem_cons_self _ _
        · exact List.mem_cons_of_mem _ (ih h)

theorem alGet_isSome_alSet {α : Type} (l : List (String × α)) {k : String}
    (k2 : String) (v : α) (h : (alGet l k).isSome) :
    (alGet (alSet l k2 v) k).isSome := by
  by_cases he : k2 = k
  · subst he
    simp [alGet_alSet_self]
  · rw [alGet_alSet_ne l v he]
    exact h

/-- The LWW acceptance condition of `apply` (and of the RECORDS merge):
the key is absent, or the stored record is strictly older. -/
def newerP {V : Type} (r : Replica V) (op : Operation V) : Prop :=
  ∀ cur, r.store op.key = some cur → cur.ts < op.ts

/-- The record `apply` writes: `(op.value, False, op.ts)` for SET and
`(None, True, op.ts)` for DEL. -/
def opRecord {V : Type} (op : Operation V) : Record V :=
  if op.op = "SET" then ⟨op.value, false, op.ts⟩ else ⟨none, true, op.ts⟩

/-- The replica state `apply` produces when it accepts the operation. -/
def applyUpd {V : Type} (r : Replica V) (op : Operation V) : Replica V :=
  { r with store := storeSet r.store op.key (opRecord op),
           ops_applied := r.ops_applied + 1 }

theorem apply_newer {V : Type} [DecidableEq V] {r : Replica V} {op : Operation V}
    (hk : op.op = "SET" ∨ op.op = "DEL") (hn : newerP r op) :
    r.apply op = some (applyUpd r op, true) := by
  unfold Replica.apply applyUpd opRecord
  rcases hs : r.store op.key with _ | cur
  · rcases hk with hk | hk <;> simp [hk]
  · have := hn cur hs
    rcases hk with hk | hk <;> simp [hk, this]

theorem apply_stale {V : Type} [DecidableEq V] {r : Replica V} {op : Operation V}
    (hn : ¬ newerP r op) : r.apply op = some (r, false) := by
  unfold newerP at hn
  push_neg at hn
  obtain ⟨cur, hs, hlt⟩ := hn
  unfold Replica.apply
  simp [hs, hlt]

theorem apply_unknown {V : Type} [DecidableEq V] {r : Replica V} {op : Operation V}
    (hk1 : op.op ≠ "SET") (hk2 : op.op ≠ "DEL") (hn : newerP r op) :
    r.apply op = none := by
  unfold Replica.apply
  rcases hs : r.store op.key with _ | cur
  · simp [hk1, hk2]
  · have := hn cur hs
    simp [hk1, hk2, this]

/-- Trichotomy of `apply` outcomes. -/
theorem apply_cases {V : Type} [DecidableEq V] (r : Replica V) (op : Operation V) :
    (r.apply op = some (applyUpd r op, true) ∧ newerP r op ∧
        (op.op = "SET" ∨ op.op = "DEL")) ∨
    (r.apply op = some (r, false) ∧ ¬ newerP r op) ∨
    (r.apply op = none ∧ newerP r op ∧ op.op ≠ "SET" ∧ op.op ≠ "DEL") := by
  by_cases hn : newerP r op
  · by_cases h1 : op.op = "SET"
    · exact Or.inl ⟨apply_newer (Or.inl h1) hn, hn, Or.inl h1⟩
    · by_cases h2 : op.op = "DEL"
      · exact Or.inl ⟨apply_newer (Or.inr h2) hn, hn, Or.inr h2⟩
      · exact Or.inr (Or.inr ⟨apply_unknown h1 h2 hn, hn, h1, h2⟩)
  · exact Or.inr (Or.inl ⟨apply_stale hn, hn⟩)

/-- Fields `apply` never touches. -/
theorem apply_frame {V : Type} [DecidableEq V] {r r2 : Replica V}
    {op : Operation V} {c : Bool} (h : r.apply op = some (r2, c)) :
    r2.seen_ops = r.seen_ops ∧ r2.active_rumors = r.active_rumors ∧
    r2.rumor_already_seen_hits = r.rumor_already_seen_hits ∧
    r2.ops_received = r.ops_received ∧ r2.ops_sent = r.ops_sent ∧
    r2.id = r.id := by
  rcases apply_cases r op with ⟨he, _, _⟩ | ⟨he, _⟩ | ⟨he, _⟩ <;> rw [he] at h
  · obtain ⟨rfl, rfl⟩ : applyUpd r op = r2 ∧ true = c := by
      simpa using h
    exact ⟨rfl, rfl, rfl, rfl, rfl, rfl⟩
  · obtain ⟨rfl, rfl⟩ : r = r2 ∧ false = c := by simpa using h
    exact ⟨rfl, rfl, rfl, rfl, rfl, rfl⟩
  · cases h

/-- `apply` only rebinds `op.key`; every other key keeps its record. -/
theorem apply_store_other {V : Type} [DecidableEq V] {r r2 : Replica V}
    {op : Operation V} {c : Bool} (h : r.apply op = some (r2, c))
    {k : String} (hk : k ≠ op.key) : r2.store k = r.store k := by
  rcases apply_cases r op with ⟨he, _, _⟩ | ⟨he, _⟩ | ⟨he, _⟩ <;> rw [he] at h
  · obtain ⟨rfl, rfl⟩ : applyUpd r op = r2 ∧ true = c := by simpa using h
    simp [applyUpd, storeSet, hk]
  · obtain ⟨rfl, rfl⟩ : r = r2 ∧ false = c := by simpa using h
    rfl
  · cases h

/-- The state in which `on_receive` calls `apply` for an unseen op. -/
def recvPre {V : Type} (r : Replica V) (op : Operation V) : Replica V :=
  { r with ops_received := r.ops_received + 1,
           seen_ops := op.op_id :: r.seen_ops }

theorem on_receive_seen {V : Type} [DecidableEq V] {r : Replica V}
    {op : Operation V} (h : op.op_id ∈ r.seen_ops) :
    r.on_receive op =
      some ({ r with ops_received := r.ops_received + 1 }, false, false) := by
  unfold Replica.on_receive
  simp [h]

theorem on_receive_new {V : Type} [DecidableEq V] {r : Replica V}
    {op : Operation V} (h : op.op_id ∉ r.seen_ops) :
    r.on_receive op =
      match (recvPre r op).apply op with
      | none => none
      | some (r3, changed) => some (r3, true, changed) := by
  unfold Replica.on_receive recvPre
  simp [h]

/-- Any successful `on_receive` bumps `ops_received` by exactly one and
leaves `ops_sent` and `id` alone. -/
theorem on_receive_received {V : Type} [DecidableEq V] {r r2 : Replica V}
    {op : Operation V} {w c : Bool}
    (h : r.on_receive op = some (r2, w, c)) :
    r2.ops_received = r.ops_received + 1 ∧ r2.ops_sent = r.ops_sent ∧
    r2.id = r.id := by
  by_cases hs : op.op_id ∈ r.seen_ops
  · rw [on_receive_seen hs] at h
    obtain ⟨rfl, rfl, rfl⟩ :
        ({ r with ops_received := r.ops_received + 1 } : Replica V) = r2 ∧
        false = w ∧ false = c := by simpa using h
    exact ⟨rfl, rfl, rfl⟩
  · rw [on_receive_new hs] at h
    rcases ha : (recvPre r op).apply op with _ | ⟨r3, ch⟩ <;> rw [ha] at h
    · cases h
    · obtain ⟨rfl, rfl, rfl⟩ : r3 = r2 ∧ true = w ∧ ch = c := by simpa using h
      obtain ⟨-, -, -, hrec, hsent, hid⟩ := apply_frame ha
      exact ⟨hrec, hsent, hid⟩

/-- `on_receive` never loses a `seen_ops` entry. -/
theorem on_receive_seen_mono {V : Type} [DecidableEq V] {r r2 : Replica V}
    {op : Operation V} {w c : Bool}
    (h : r.on_receive op = some (r2, w, c)) {x : String}
    (hx : x ∈ r.seen_ops) : x ∈ r2.seen_ops := by
  by_cases hs : op.op_id ∈ r.seen_ops
  · rw [on_receive_seen hs] at h
    obtain ⟨rfl, rfl, rfl⟩ :
        ({ r with ops_received := r.ops_received + 1 } : Replica V) = r2 ∧
        false = w ∧ false = c := by simpa using h
    exact hx
  · rw [on_receive_new hs] at h
    rcases ha : (recvPre r op).apply op with _ | ⟨r3, ch⟩ <;> rw [ha] at h
    · cases h
    · obtain ⟨rfl, rfl, rfl⟩ : r3 = r2 ∧ true = w ∧ ch = c := by simpa using h
      obtain ⟨hseen, -⟩ := apply_frame ha
      rw [hseen]
      exact List.mem_cons_of_mem _ hx

/-- After `on_receive` reports `was_new = true`, the op id is in
`seen_ops`. -/
theorem on_receive_new_mem {V : Type} [DecidableEq V] {r r2 : Replica V}
    {op : Operation V} {c : Bool}
    (h : r.on_receive op = some (r2, true, c)) : op.op_id ∈ r2.seen_ops := by
  by_cases hs : op.op_id ∈ r.seen_ops
  · rw [on_receive_seen hs] at h
    simp at h
  · rw [on_receive_new hs] at h
    rcases ha : (recvPre r op).apply op with _ | ⟨r3, ch⟩ <;> rw [ha] at h
    · cases h
    · obtain ⟨rfl, -, rfl⟩ : r3 = r2 ∧ true = true ∧ ch = c := by simpa using h
      obtain ⟨hseen, -⟩ := apply_frame ha
      rw [hseen]
      exact List.mem_cons_self _ _

/-- A receive of an already-seen op id reports `was_new = false`. -/
theorem on_receive_dup_not_new {V : Type} [DecidableEq V] {r r2 : Replica V}
    {op : Operation V} {w c : Bool}
    (h : r.on_receive op = some (r2, w, c)) (hs : op.op_id ∈ r.seen_ops) :
    w = false := by
  rw [on_receive_seen hs] at h
  obtain ⟨-, rfl, -⟩ :
      ({ r with ops_received := r.ops_received + 1 } : Replica V) = r2 ∧
      false = w ∧ false = c := by simpa using h
  rfl

theorem storeSet_self {V : Type} (s : String → Option (Record V)) (k : String)
    (rec : Record V) : storeSet s k rec k = some rec := by
  simp [storeSet]

theorem storeSet_ne {V : Type} (s : String → Option (Record V)) {k k2 : String}
    (rec : Record V) (h : k2 ≠ k) : storeSet s k rec k2 = s k2 := by
  simp [storeSet, h]

theorem storeSet_storeSet {V : Type} (s : String → Option (Record V))
    (k : String) (a b : Record V) :
    storeSet (storeSet s k a) k b = storeSet s k b := by
  funext k2
  by_cases h : k2 = k <;> simp [storeSet, h]

theorem opRecord_ts {V : Type} (op : Operation V) : (opRecord op).ts = op.ts := by
  unfold opRecord
  split <;> rfl

/-- The acceptance condition, phrased as the spec does. -/
theorem newerP_iff {V : Type} (r : Replica V) (op : Operation V) :
    newerP r op ↔
      (r.store op.key = none ∨
        ∃ cur, r.store op.key = some cur ∧ cur.ts < op.ts) := by
  unfold newerP
  rcases hs : r.store op.key with _ | cur
  · simp
  · constructor
    · intro h
      exact Or.inr ⟨cur, rfl, h cur rfl⟩
    · rintro (h | ⟨cur2, h2, hlt⟩) c hc
      · cases h
      · cases hc
        cases h2
        exact hlt

/-- C1: for SET/DEL operations, `Replica.apply` replaces `store[op.key]`
and returns `true` exactly when the key is absent or `op.ts` beats the
current record's timestamp — writing `(op.value, false, op.ts)` for SET
and `(None, true, op.ts)` for DEL and bumping `ops_applied` by one —
and otherwise returns `false` with the state unchanged. -/
theorem claim_c1_apply_lww {V : Type} [DecidableEq V] (r : Replica V)
    (op : Operation V) (hk : op.op = "SET" ∨ op.op = "DEL") :
    ((r.store op.key = none ∨
        ∃ cur, r.store op.key = some cur ∧ cur.ts < op.ts) →
      r.apply op =
        some ({ r with store := storeSet r.store op.key (opRecord op),
                       ops_applied := r.ops_applied + 1 }, true)) ∧
    (¬ (r.store op.key = none ∨
        ∃ cur, r.store op.key = some cur ∧ cur.ts < op.ts) →
      r.apply op = some (r, false)) ∧
    (op.op = "SET" → opRecord op = ⟨op.value, false, op.ts⟩) ∧
    (op.op = "DEL" → opRecord op = ⟨none, true, op.ts⟩) := by
  refine ⟨fun hc => ?_, fun hc => ?_, fun hset => ?_, fun hdel => ?_⟩
  · exact apply_newer hk ((newerP_iff r op).mpr hc)
  · exact apply_stale (fun hn => hc ((newerP_iff r op).mp hn))
  · simp [opRecord, hset]
  · have : op.op ≠ "SET" := by
      rw [hdel]
      decide
    simp [opRecord, this]

def cw1Rep : Replica String :=
  ⟨"R0", fun _ => none, [], [], [], 0, 0, 0⟩

def cw1Op : Operation String :=
  ⟨"R0:1", "SET", "k", some "v", ⟨1, "R0"⟩, "R0"⟩

theorem claim_c1_witness :
    cw1Rep.apply cw1Op =
      some ({ cw1Rep with store := storeSet cw1Rep.store "k" (opRecord cw1Op),
                          ops_applied := 1 }, true) := by
  have h := claim_c1_apply_lww cw1Rep cw1Op (Or.inl rfl)
  exact h.1 (Or.inl rfl)

def cx8Rep : Replica String :=
  ⟨"R0", fun k => if k = "k" then some ⟨some "v", false, ⟨5, "A"⟩⟩ else none,
   [], [], [], 0, 0, 0⟩

def cx8Op : Operation String :=
  ⟨"R0:1", "FOO", "k", none, ⟨3, "A"⟩, "R0"⟩

/-- C8 counterexample: an op of unknown kind `"FOO"` whose timestamp
does not beat the stored record makes `apply` return `false` silently —
no error is raised, contradicting "the error is raised regardless of how
`op.ts` compares with the current record's timestamp". -/
theorem claim_c8_counterexample :
    cx8Op.op ≠ "SET" ∧ cx8Op.op ≠ "DEL" ∧
    cx8Rep.apply cx8Op = some (cx8Rep, false) := by
  refine ⟨by decide, by decide, ?_⟩
  rfl

/-- C8 (amended): `apply` raises on an unknown kind exactly when the LWW
acceptance condition holds (key absent or strictly newer timestamp);
when the stored record is not older, it returns `false` silently without
inspecting the kind. -/
theorem claim_c8_amended {V : Type} [DecidableEq V] (r : Replica V)
    (op : Operation V) (hk1 : op.op ≠ "SET") (hk2 : op.op ≠ "DEL") :
    ((r.store op.key = none ∨
        ∃ cur, r.store op.key = some cur ∧ cur.ts < op.ts) →
      r.apply op = none) ∧
    (∀ cur, r.store op.key = some cur → ¬ cur.ts < op.ts →
      r.apply op = some (r, false)) := by
  constructor
  · intro hc
    exact apply_unknown hk1 hk2 ((newerP_iff r op).mpr hc)
  · intro cur hcur hlt
    refine apply_stale ?_
    intro hn
    exact hlt (hn cur hcur)

def cw8Rep : Replica String :=
  ⟨"R0", fun _ => none, [], [], [], 0, 0, 0⟩

def cw8Op : Operation String :=
  ⟨"R0:2", "FOO", "k", none, ⟨3, "A"⟩, "R0"⟩

theorem claim_c8_witness : cw8Rep.apply cw8Op = none := by
  have h := claim_c8_amended cw8Rep cw8Op (by decide) (by decide)
  exact h.1 (Or.inl rfl)

/-- Deliver two operations to a replica with `apply`, in the given
order; the Booleans are discarded as in the delivery loop. -/
def applyTwo {V : Type} [DecidableEq V] (r : Replica V)
    (o1 o2 : Operation V) : Option (Replica V) :=
  match r.apply o1 with
  | none => none
  | some (r1, _) =>
      match r1.apply o2 with
      | none => none
      | some (r2, _) => some r2

/-- C4: two SET/DEL operations on the same key with `o1.ts < o2.ts`,
delivered to a store whose record for that key (if any) is older than
`o2.ts`, commute: both orders succeed, produce identical stores, and the
key ends bound to the record written by `o2`. -/
theorem claim_c4_lww_commutes {V : Type} [DecidableEq V] (r : Replica V)
    (o1 o2 : Operation V) (hk1 : o1.op = "SET" ∨ o1.op = "DEL")
    (hk2 : o2.op = "SET" ∨ o2.op = "DEL") (hkey : o1.key = o2.key)
    (hts : o1.ts < o2.ts)
    (hstart : ∀ cur, r.store o2.key = some cur → cur.ts < o2.ts) :
    ∃ ra rb, applyTwo r o1 o2 = some ra ∧ applyTwo r o2 o1 = some rb ∧
      ra.store = rb.store ∧ ra.store o2.key = some (opRecord o2) := by
  have hn2 : newerP r o2 := hstart
  -- order o2 then o1: o2 is accepted, o1 is then stale
  have e2 : r.apply o2 = some (applyUpd r o2, true) := apply_newer hk2 hn2
  have hstale1 : ¬ newerP (applyUpd r o2) o1 := by
    intro hn
    have hgot : (applyUpd r o2).store o1.key = some (opRecord o2) := by
      simp [applyUpd, hkey, storeSet_self]
    have := hn _ hgot
    rw [opRecord_ts] at this
    exact Timestamp.lt_asymm hts this
  have e21 : (applyUpd r o2).apply o1 = some (applyUpd r o2, false) :=
    apply_stale hstale1
  have hb : applyTwo r o2 o1 = some (applyUpd r o2) := by
    simp only [applyTwo, e2, e21]
  by_cases hn1 : newerP r o1
  -- o1 accepted first, then overwritten by o2
  · have e1 : r.apply o1 = some (applyUpd r o1, true) := apply_newer hk1 hn1
    have hn12 : newerP (applyUpd r o1) o2 := by
      intro cur hcur
      have hg : (applyUpd r o1).store o2.key = some (opRecord o1) := by
        simp [applyUpd, ← hkey, storeSet_self]
      rw [hg] at hcur
      injection hcur with h
      rw [← h, opRecord_ts]
      exact hts
    have e12 : (applyUpd r o1).apply o2 =
        some (applyUpd (applyUpd r o1) o2, true) := apply_newer hk2 hn12
    have ha : applyTwo r o1 o2 = some (applyUpd (applyUpd r o1) o2) := by
      simp only [applyTwo, e1, e12]
    refine ⟨_, _, ha, hb, ?_, ?_⟩
    · show (applyUpd (applyUpd r o1) o2).store = (applyUpd r o2).store
      simp only [applyUpd]
      rw [← hkey, storeSet_storeSet]
    · simp [applyUpd, storeSet_self]
  -- o1 stale first, then o2 accepted
  · have e1 : r.apply o1 = some (r, false) := apply_stale hn1
    have ha : applyTwo r o1 o2 = some (applyUpd r o2) := by
      simp only [applyTwo, e1, e2]
    exact ⟨_, _, ha, hb, rfl, by simp [applyUpd, storeSet_self]⟩

def cw4Rep : Replica String :=
  ⟨"R0", fun _ => none, [], [], [], 0, 0, 0⟩

def cw4Op1 : Operation String :=
  ⟨"R0:1", "SET", "k", some "a", ⟨1, "R0"⟩, "R0"⟩

def cw4Op2 : Operation String :=
  ⟨"R1:1", "DEL", "k", none, ⟨2, "R1"⟩, "R1"⟩

theorem claim_c4_witness :
    ∃ ra rb, applyTwo cw4Rep cw4Op1 cw4Op2 = some ra ∧
      applyTwo cw4Rep cw4Op2 cw4Op1 = some rb ∧
      ra.store = rb.store ∧ ra.store cw4Op2.key = some (opRecord cw4Op2) :=
  claim_c4_lww_commutes cw4Rep cw4Op1 cw4Op2 (Or.inl rfl) (Or.inr rfl) rfl
    (by decide) (fun cur h => Option.noConfusion h)

/-- Deliver a list of operations to a replica with `on_receive`,
recording each op with its `was_new` result. -/
def receiveTrace {V : Type} [DecidableEq V] (r : Replica V) :
    List (Operation V) → Option (Replica V × List (Operation V × Bool))
  | [] => some (r, [])
  | op :: rest =>
      match r.on_receive op with
      | none => none
      | some (r1, wasNew, _) =>
          match receiveTrace r1 rest with
          | none => none
          | some (rf, tl) => some (rf, (op, wasNew) :: tl)

/-- How many deliveries of ops with id `x` were reported new. -/
def countNew {V : Type} (x : String) (tr : List (Operation V × Bool)) : Nat :=
  (tr.filter fun p => decide (p.1.op_id = x) && p.2).length

theorem countNew_nil {V : Type} (x : String) : countNew (V := V) x [] = 0 := rfl

theorem receiveTrace_seen_zero {V : Type} [DecidableEq V] {x : String} :
    ∀ {ops : List (Operation V)} {r rf : Replica V}
      {tr : List (Operation V × Bool)}, x ∈ r.seen_ops →
      receiveTrace r ops = some (rf, tr) → countNew x tr = 0 := by
  intro ops
  induction ops with
  | nil =>
      intro r rf tr hx h
      obtain ⟨rfl, rfl⟩ : r = rf ∧ ([] : List (Operation V × Bool)) = tr := by
        simpa [receiveTrace] using h
      rfl
  | cons op rest ih =>
      intro r rf tr hx h
      unfold receiveTrace at h
      rcases h1 : r.on_receive op with _ | ⟨r1, wasNew, ch⟩ <;>
        simp only [h1] at h
      · exact Option.noConfusion h
      · rcases h2 : receiveTrace r1 rest with _ | ⟨rf2, tl⟩ <;>
          simp only [h2] at h
        · exact Option.noConfusion h
        · obtain ⟨rfl, rfl⟩ : rf2 = rf ∧ (op, wasNew) :: tl = tr := by
            simpa using h
          have hx1 : x ∈ r1.seen_ops := on_receive_seen_mono h1 hx
          have htl : countNew x tl = 0 := ih hx1 h2
          by_cases hid : op.op_id = x
          · have hw : wasNew = false := on_receive_dup_not_new h1 (hid ▸ hx)
            simp [countNew, hw] at htl ⊢
            exact htl
          · simp [countNew, hid] at htl ⊢
            exact htl

theorem receiveTrace_at_most_once {V : Type} [DecidableEq V] {x : String} :
    ∀ {ops : List (Operation V)} {r rf : Replica V}
      {tr : List (Operation V × Bool)},
      receiveTrace r ops = some (rf, tr) → countNew x tr ≤ 1 := by
  intro ops
  induction ops with
  | nil =>
      intro r rf tr h
      obtain ⟨rfl, rfl⟩ : r = rf ∧ ([] : List (Operation V × Bool)) = tr := by
        simpa [receiveTrace] using h
      simp [countNew]
  | cons op rest ih =>
      intro r rf tr h
      unfold receiveTrace at h
      rcases h1 : r.on_receive op with _ | ⟨r1, wasNew, ch⟩ <;>
        simp only [h1] at h
      · exact Option.noConfusion h
      · rcases h2 : receiveTrace r1 rest with _ | ⟨rf2, tl⟩ <;>
          simp only [h2] at h
        · exact Option.noConfusion h
        · obtain ⟨rfl, rfl⟩ : rf2 = rf ∧ (op, wasNew) :: tl = tr := by
            simpa using h
          by_cases hid : op.op_id = x
          · cases hw : wasNew
            · have := ih (r := r1) h2
              simp [countNew, hw] at this ⊢
              exact this
            · have hmem : x ∈ r1.seen_ops := by
                rw [hw] at h1
                exact hid ▸ on_receive_new_mem h1
              have h0 : countNew x tl = 0 := receiveTrace_seen_zero hmem h2
              subst hw
              have hstep : countNew x ((op, true) :: tl) = countNew x tl + 1 := by
                simp [countNew, hid]
              rw [hstep, h0]
          · have := ih (r := r1) h2
            simp [countNew, hid] at this ⊢
            exact this

/-- C5: `on_receive` always bumps `ops_received` by one; a duplicate
`op_id` yields `(false, false)` with nothing else changed; a fresh
`op_id` is added to `seen_ops` before `apply` runs and yields
`(true, changed)`; consequently over any delivery sequence a fixed
`op_id` is reported new at most once per replica. -/
theorem claim_c5_on_receive_dedup {V : Type} [DecidableEq V] :
    (∀ (r r2 : Replica V) (op : Operation V) (w c : Bool),
      r.on_receive op = some (r2, w, c) →
        r2.ops_received = r.ops_received + 1) ∧
    (∀ (r : Replica V) (op : Operation V), op.op_id ∈ r.seen_ops →
      r.on_receive op =
        some ({ r with ops_received := r.ops_received + 1 }, false, false)) ∧
    (∀ (r : Replica V) (op : Operation V), op.op_id ∉ r.seen_ops →
      r.on_receive op =
        match (recvPre r op).apply op with
        | none => none
        | some (r3, changed) => some (r3, true, changed)) ∧
    (∀ (r rf : Replica V) (ops : List (Operation V))
      (tr : List (Operation V × Bool)) (x : String),
      receiveTrace r ops = some (rf, tr) → countNew x tr ≤ 1) :=
  ⟨fun _ _ _ _ _ h => (on_receive_received h).1,
   fun _ _ h => on_receive_seen h,
   fun _ _ h => on_receive_new h,
   fun _ _ _ _ _ h => receiveTrace_at_most_once h⟩

def cw5Rep : Replica String :=
  ⟨"R1", fun _ => none, [], [], [], 0, 0, 0⟩

def cw5Op : Operation String :=
  ⟨"R0:9", "SET", "q", some "w", ⟨1, "R0"⟩, "R0"⟩

theorem claim_c5_witness :
    ∃ rf tr, receiveTrace cw5Rep [cw5Op, cw5Op] = some (rf, tr) ∧
      countNew "R0:9" tr ≤ 1 := by
  refine ⟨_, _, rfl, ?_⟩
  exact (claim_c5_on_receive_dedup (V := String)).2.2.2 cw5Rep _
    [cw5Op, cw5Op] _ "R0:9" rfl

theorem apply_ts_mono {V : Type} [DecidableEq V] {r r2 : Replica V}
    {op : Operation V} {c : Bool} (h : r.apply op = some (r2, c))
    {k : String} {rec rec2 : Record V} (h1 : r.store k = some rec)
    (h2 : r2.store k = some rec2) : rec.ts ≤ rec2.ts := by
  rcases apply_cases r op with ⟨he, hn, _⟩ | ⟨he, _⟩ | ⟨he, _⟩ <;> rw [he] at h
  · obtain ⟨rfl, rfl⟩ : applyUpd r op = r2 ∧ true = c := by simpa using h
    by_cases hk : k = op.key
    · subst hk
      have hlt := hn rec h1
      have hset : (applyUpd r op).store op.key = some (opRecord op) := by
        simp [applyUpd, storeSet_self]
      rw [hset] at h2
      injection h2 with h2
      rw [← h2, opRecord_ts]
      exact Timestamp.le_of_lt hlt
    · have hsame : (applyUpd r op).store k = r.store k := by
        simp [applyUpd, storeSet_ne _ _ hk]
      rw [hsame, h1] at h2
      injection h2 with h2
      rw [← h2]
      exact Timestamp.le_refl _
  · obtain ⟨rfl, rfl⟩ : r = r2 ∧ false = c := by simpa using h
    rw [h1] at h2
    injection h2 with h2
    rw [← h2]
    exact Timestamp.le_refl _
  · cases h

theorem on_receive_ts_mono {V : Type} [DecidableEq V] {r r2 : Replica V}
    {op : Operation V} {w c : Bool} (h : r.on_receive op = some (r2, w, c))
    {k : String} {rec rec2 : Record V} (h1 : r.store k = some rec)
    (h2 : r2.store k = some rec2) : rec.ts ≤ rec2.ts := by
  by_cases hs : op.op_id ∈ r.seen_ops
  · rw [on_receive_seen hs] at h
    obtain ⟨rfl, rfl, rfl⟩ :
        ({ r with ops_received := r.ops_received + 1 } : Replica V) = r2 ∧
        false = w ∧ false = c := by simpa using h
    have : r.store k = some rec2 := h2
    rw [h1] at this
    injection this with h3
    rw [← h3]
    exact Timestamp.le_refl _
  · rw [on_receive_new hs] at h
    rcases ha : (recvPre r op).apply op with _ | ⟨r3, ch⟩ <;>
      simp only [ha] at h
    · exact Option.noConfusion h
    · obtain ⟨rfl, rfl, rfl⟩ : r3 = r2 ∧ true = w ∧ ch = c := by simpa using h
      exact apply_ts_mono ha (k := k) h1 h2

theorem mergeRecord_ts_mono {V : Type} (r : Replica V) (k2 : String)
    (rec2 : Record V) {k : String} {rec : Record V}
    (h : r.store k = some rec) :
    ∃ rec3, (r.mergeRecord k2 rec2).store k = some rec3 ∧
      rec.ts ≤ rec3.ts := by
  unfold Replica.mergeRecord
  rcases h4 : r.store k2 with _ | cur
  · by_cases hk : k = k2
    · subst hk
      rw [h] at h4
      exact Option.noConfusion h4
    · exact ⟨rec, by simpa [storeSet_ne _ _ hk] using h, Timestamp.le_refl _⟩
  · by_cases hlt : cur.ts < rec2.ts
    · simp only [if_pos hlt]
      by_cases hk : k = k2
      · subst hk
        rw [h] at h4
        injection h4 with h4
        refine ⟨rec2, by simp [storeSet_self], ?_⟩
        rw [h4]
        exact Timestamp.le_of_lt hlt
      · exact ⟨rec, by simpa [storeSet_ne _ _ hk] using h, Timestamp.le_refl _⟩
    · simp only [if_neg hlt]
      exact ⟨rec, h, Timestamp.le_refl _⟩

theorem handleRecords_ts_mono {V : Type} :
    ∀ (items : List (String × Record V)) (r : Replica V) {k : String}
      {rec : Record V}, r.store k = some rec →
      ∃ rec3, (r.handleRecords items).store k = some rec3 ∧
        rec.ts ≤ rec3.ts := by
  intro items
  induction items with
  | nil =>
      intro r k rec h
      exact ⟨rec, h, Timestamp.le_refl _⟩
  | cons p rest ih =>
      intro r k rec h
      obtain ⟨rec3, h3, hle⟩ := mergeRecord_ts_mono r p.1 p.2 h
      obtain ⟨rec4, h4, hle2⟩ := ih (r.mergeRecord p.1 p.2) h3
      refine ⟨rec4, ?_, Timestamp.le_trans hle hle2⟩
      simpa [Replica.handleRecords] using h4

/-- C3: per key, the stored timestamp never decreases across the
state-mutating steps: `apply`, `apply` via `on_receive`, and the
anti-entropy RECORDS merge. -/
theorem claim_c3_ts_monotone {V : Type} [DecidableEq V] :
    (∀ (r r2 : Replica V) (op : Operation V) (c : Bool),
      r.apply op = some (r2, c) → ∀ (k : String) (rec rec2 : Record V),
        r.store k = some rec → r2.store k = some rec2 →
          rec.ts ≤ rec2.ts) ∧
    (∀ (r r2 : Replica V) (op : Operation V) (w c : Bool),
      r.on_receive op = some (r2, w, c) → ∀ (k : String) (rec rec2 : Record V),
        r.store k = some rec → r2.store k = some rec2 →
          rec.ts ≤ rec2.ts) ∧
    (∀ (r : Replica V) (items : List (String × Record V)) (k : String)
      (rec rec2 : Record V), r.store k = some rec →
        (r.handleRecords items).store k = some rec2 →
          rec.ts ≤ rec2.ts) := by
  refine ⟨fun r r2 op c h k rec rec2 h1 h2 => apply_ts_mono h h1 h2,
    fun r r2 op w c h k rec rec2 h1 h2 => on_receive_ts_mono h h1 h2,
    fun r items k rec rec2 h1 h2 => ?_⟩
  obtain ⟨rec3, h3, hle⟩ := handleRecords_ts_mono items r h1
  rw [h3] at h2
  injection h2 with h2
  rw [← h2]
  exact hle

def cw3Rep : Replica String :=
  ⟨"R0", fun k => if k = "m" then some ⟨some "old", false, ⟨1, "A"⟩⟩ else none,
   [], [], [], 0, 0, 0⟩

def cw3Op : Operation String :=
  ⟨"R0:3", "SET", "m", some "new", ⟨2, "A"⟩, "R0"⟩

theorem claim_c3_witness :
    (Timestamp.mk 1 "A") ≤ (Timestamp.mk 2 "A") := by
  have h := (claim_c3_ts_monotone (V := String)).1 cw3Rep _ cw3Op _ rfl "m"
    ⟨some "old", false, ⟨1, "A"⟩⟩ (opRecord cw3Op) rfl rfl
  simpa [opRecord, cw3Op] using h

theorem mergeRecord_frame {V : Type} (r : Replica V) (k : String)
    (rec : Record V) :
    (r.mergeRecord k rec).seen_ops = r.seen_ops ∧
    (r.mergeRecord k rec).active_rumors = r.active_rumors ∧
    (r.mergeRecord k rec).rumor_already_seen_hits =
      r.rumor_already_seen_hits ∧
    (r.mergeRecord k rec).ops_received = r.ops_received ∧
    (r.mergeRecord k rec).ops_sent = r.ops_sent ∧
    (r.mergeRecord k rec).id = r.id := by
  unfold Replica.mergeRecord
  split
  · exact ⟨rfl, rfl, rfl, rfl, rfl, rfl⟩
  · split
    · exact ⟨rfl, rfl, rfl, rfl, rfl, rfl⟩
    · exact ⟨rfl, rfl, rfl, rfl, rfl, rfl⟩

theorem handleRecords_frame {V : Type} :
    ∀ (items : List (String × Record V)) (r : Replica V),
    (r.handleRecords items).seen_ops = r.seen_ops ∧
    (r.handleRecords items).active_rumors = r.active_rumors ∧
    (r.handleRecords items).rumor_already_seen_hits =
      r.rumor_already_seen_hits ∧
    (r.handleRecords items).ops_received = r.ops_received ∧
    (r.handleRecords items).ops_sent = r.ops_sent ∧
    (r.handleRecords items).id = r.id := by
  intro items
  induction items with
  | nil => intro r; exact ⟨rfl, rfl, rfl, rfl, rfl, rfl⟩
  | cons p rest ih =>
      intro r
      obtain ⟨m1, m2, m3, m4, m5, m6⟩ := mergeRecord_frame r p.1 p.2
      obtain ⟨i1, i2, i3, i4, i5, i6⟩ := ih (r.mergeRecord p.1 p.2)
      have hexp : r.handleRecords (p :: rest) =
          (r.mergeRecord p.1 p.2).handleRecords rest := by
        simp [Replica.handleRecords]
      rw [hexp]
      exact ⟨i1.trans m1, i2.trans m2, i3.trans m3, i4.trans m4,
        i5.trans m5, i6.trans m6⟩

theorem mergeRecord_hit {V : Type} (r : Replica V) (k : String)
    (rec : Record V)
    (h : r.store k = none ∨ ∃ cur, r.store k = some cur ∧ cur.ts < rec.ts) :
    (r.mergeRecord k rec).store k = some rec ∧
    (r.mergeRecord k rec).ops_applied = r.ops_applied + 1 ∧
    ∀ k2, k2 ≠ k → (r.mergeRecord k rec).store k2 = r.store k2 := by
  unfold Replica.mergeRecord
  rcases h with h | ⟨cur, h, hlt⟩
  · rw [h]
    exact ⟨storeSet_self _ _ _, rfl, fun k2 hk2 => storeSet_ne _ _ hk2⟩
  · simp only [h]
    rw [if_pos hlt]
    exact ⟨storeSet_self _ _ _, rfl, fun k2 hk2 => storeSet_ne _ _ hk2⟩

theorem mergeRecord_miss {V : Type} (r : Replica V) (k : String)
    (rec : Record V) {cur : Record V} (h : r.store k = some cur)
    (hlt : ¬ cur.ts < rec.ts) : r.mergeRecord k rec = r := by
  unfold Replica.mergeRecord
  simp only [h]
  rw [if_neg hlt]

/-- C9: the RECORDS handler touches only the store and `ops_applied`
(the dedup set, both rumor maps, `ops_received`, `ops_sent` and the id
survive unchanged), and one listed `(key, rec)` pair overwrites
`store[key]` exactly when the key is absent or `rec.ts` beats the
stored timestamp, leaving every other key alone. -/
theorem claim_c9_records_frame {V : Type} :
    (∀ (r : Replica V) (items : List (String × Record V)),
      (r.handleRecords items).seen_ops = r.seen_ops ∧
      (r.handleRecords items).active_rumors = r.active_rumors ∧
      (r.handleRecords items).rumor_already_seen_hits =
        r.rumor_already_seen_hits ∧
      (r.handleRecords items).ops_received = r.ops_received ∧
      (r.handleRecords items).ops_sent = r.ops_sent ∧
      (r.handleRecords items).id = r.id) ∧
    (∀ (r : Replica V) (k : String) (rec : Record V),
      (r.store k = none ∨ ∃ cur, r.store k = some cur ∧ cur.ts < rec.ts) →
        (r.mergeRecord k rec).store k = some rec ∧
        (r.mergeRecord k rec).ops_applied = r.ops_applied + 1 ∧
        ∀ k2, k2 ≠ k → (r.mergeRecord k rec).store k2 = r.store k2) ∧
    (∀ (r : Replica V) (k : String) (rec cur : Record V),
      r.store k = some cur → ¬ cur.ts < rec.ts →
        r.mergeRecord k rec = r) ∧
    (∀ (r : Replica V) (items : List (String × Record V)),
      r.handleRecords items =
        items.foldl (fun acc p => acc.mergeRecord p.1 p.2) r) :=
  ⟨fun r items => handleRecords_frame items r,
   fun r k rec h => mergeRecord_hit r k rec h,
   fun r k rec cur h hlt => mergeRecord_miss r k rec h hlt,
   fun _ _ => rfl⟩

def cw9Rep : Replica String :=
  ⟨"R2", fun k => if k = "p" then some ⟨some "u", false, ⟨1, "B"⟩⟩ else none,
   ["R0:1"], [("R0:1", 3)], [("R0:1", 0)], 4, 5, 6⟩

def cw9Rec : Record String := ⟨some "w", false, ⟨9, "C"⟩⟩

theorem claim_c9_witness :
    (cw9Rep.handleRecords [("p", cw9Rec)]).seen_ops = cw9Rep.seen_ops ∧
    (cw9Rep.mergeRecord "p" cw9Rec).store "p" = some cw9Rec := by
  constructor
  · exact ((claim_c9_records_frame (V := String)).1 cw9Rep [("p", cw9Rec)]).1
  · refine ((claim_c9_records_frame (V := String)).2.1 cw9Rep "p" cw9Rec ?_).1
    exact Or.inr ⟨⟨some "u", false, ⟨1, "B"⟩⟩, rfl, by decide⟩

theorem apply_store_isSome {V : Type} [DecidableEq V] {r r2 : Replica V}
    {op : Operation V} {c : Bool} (h : r.apply op = some (r2, c))
    (k : String) (hk : (r.store k).isSome) : (r2.store k).isSome := by
  rcases apply_cases r op with ⟨he, _, _⟩ | ⟨he, _⟩ | ⟨he, _⟩ <;> rw [he] at h
  · obtain ⟨rfl, rfl⟩ : applyUpd r op = r2 ∧ true = c := by simpa using h
    by_cases hkk : k = op.key
    · subst hkk
      simp [applyUpd, storeSet_self]
    · simpa [applyUpd, storeSet_ne _ _ hkk] using hk
  · obtain ⟨rfl, rfl⟩ : r = r2 ∧ false = c := by simpa using h
    exact hk
  · cases h

theorem on_receive_store_isSome {V : Type} [DecidableEq V] {r r2 : Replica V}
    {op : Operation V} {w c : Bool} (h : r.on_receive op = some (r2, w, c))
    (k : String) (hk : (r.store k).isSome) : (r2.store k).isSome := by
  by_cases hs : op.op_id ∈ r.seen_ops
  · rw [on_receive_seen hs] at h
    obtain ⟨rfl, rfl, rfl⟩ :
        ({ r with ops_received := r.ops_received + 1 } : Replica V) = r2 ∧
        false = w ∧ false = c := by simpa using h
    exact hk
  · rw [on_receive_new hs] at h
    rcases ha : (recvPre r op).apply op with _ | ⟨r3, ch⟩ <;>
      simp only [ha] at h
    · exact Option.noConfusion h
    · obtain ⟨rfl, rfl, rfl⟩ : r3 = r2 ∧ true = w ∧ ch = c := by simpa using h
      exact apply_store_isSome ha k hk

theorem handleRecords_store_isSome {V : Type}
    (items : List (String × Record V)) (r : Replica V) (k : String)
    (hk : (r.store k).isSome) : ((r.handleRecords items).store k).isSome := by
  obtain ⟨rec, hrec⟩ := Option.isSome_iff_exists.mp hk
  obtain ⟨rec3, h3, -⟩ := handleRecords_ts_mono items r hrec
  simp [h3]

theorem activate_rumor_store {V : Type} (r : Replica V) (oid : String)
    (b : Int) : (r.activate_rumor oid b).store = r.store := by
  unfold Replica.activate_rumor
  split <;> rfl

theorem handleAck_store {V : Type} (r : Replica V) (oid status : String) :
    (r.handleAck oid status).store = r.store := by
  unfold Replica.handleAck
  split <;> rfl

theorem handleDigest_store {V : Type} (r : Replica V) :
    r.handleDigest.store = r.store := rfl

theorem tickOne_store {V : Type} (idx : List (String × Operation V))
    (f th : Nat) (r : Replica V) (oid : String) :
    (tickOne idx f th r oid).store = r.store := by
  unfold tickOne
  split
  · rfl
  · split
    · rfl
    · split
      · rfl
      · dsimp only
        split <;> rfl

theorem foldl_tickOne_store {V : Type} (idx : List (String × Operation V))
    (f th : Nat) :
    ∀ (keys : List String) (r : Replica V),
      (keys.foldl (tickOne idx f th) r).store = r.store := by
  intro keys
  induction keys with
  | nil => intro r; rfl
  | cons oid rest ih =>
      intro r
      calc ((oid :: rest).foldl (tickOne idx f th) r).store
          = (rest.foldl (tickOne idx f th) (tickOne idx f th r oid)).store := rfl
        _ = (tickOne idx f th r oid).store := ih _
        _ = r.store := tickOne_store idx f th r oid

theorem rumorTick_store {V : Type} (r : Replica V)
    (idx : List (String × Operation V)) (f th : Nat) (hp : Bool) :
    (r.rumorTick idx f th hp).store = r.store := by
  unfold Replica.rumorTick
  split
  · exact foldl_tickOne_store idx f th _ r
  · rfl

theorem handleOpMsg_store_isSome {V : Type} [DecidableEq V] {B : Int}
    {s s2 : RState V} {op : Operation V} (h : handleOpMsg B s op = some s2)
    (k : String) (hk : (s.rep.store k).isSome) :
    (s2.rep.store k).isSome := by
  unfold handleOpMsg at h
  rcases h1 : s.rep.on_receive op with _ | ⟨r1, wasNew, ch⟩ <;>
    simp only [h1] at h
  · exact Option.noConfusion h
  · have hmono := on_receive_store_isSome h1 k hk
    cases wasNew <;> simp only [Bool.false_eq_true, if_false, if_true,
      reduceIte] at h
    · obtain rfl : (⟨{ r1 with ops_sent := r1.ops_sent + 1 },
          s.opIndex⟩ : RState V) = s2 := by simpa using h
      exact hmono
    · obtain rfl : (⟨({ r1 with ops_sent := r1.ops_sent + 1 } :
          Replica V).activate_rumor op.op_id B,
          if (alGet s.opIndex op.op_id).isSome then s.opIndex
          else alSet s.opIndex op.op_id op⟩ : RState V) = s2 := by
        simpa using h
      simpa [activate_rumor_store] using hmono

theorem injectOp_store_isSome {V : Type} [DecidableEq V] {B : Int}
    {s s2 : RState V} {op : Operation V} (h : injectOp B s op = some s2)
    (k : String) (hk : (s.rep.store k).isSome) :
    (s2.rep.store k).isSome := by
  unfold injectOp at h
  rcases h1 : s.rep.on_receive op with _ | ⟨r1, wasNew, ch⟩ <;>
    simp only [h1] at h
  · exact Option.noConfusion h
  · have hmono := on_receive_store_isSome h1 k hk
    cases wasNew <;> simp only [Bool.false_eq_true, if_false, if_true,
      reduceIte] at h
    · obtain rfl : (⟨r1, s.opIndex⟩ : RState V) = s2 := by simpa using h
      exact hmono
    · obtain rfl : (⟨r1.activate_rumor op.op_id B,
          alSet s.opIndex op.op_id op⟩ : RState V) = s2 := by simpa using h
      simpa [activate_rumor_store] using hmono

/-- C10: no operation removes a key from a store: `apply`, `on_receive`,
the RECORDS merge and the OP/inject handlers only add keys or replace
the bound record, while the ACK, DIGEST, rumor-tick and activation
steps leave the store untouched; a DEL binds the key to a tombstone
record `(None, true, op.ts)` rather than erasing it. -/
theorem claim_c10_keys_monotone {V : Type} [DecidableEq V] :
    (∀ (r r2 : Replica V) (op : Operation V) (c : Bool),
      r.apply op = some (r2, c) → ∀ k, (r.store k).isSome →
        (r2.store k).isSome) ∧
    (∀ (r r2 : Replica V) (op : Operation V) (w c : Bool),
      r.on_receive op = some (r2, w, c) → ∀ k, (r.store k).isSome →
        (r2.store k).isSome) ∧
    (∀ (r : Replica V) (items : List (String × Record V)) (k : String),
      (r.store k).isSome → ((r.handleRecords items).store k).isSome) ∧
    (∀ (B : Int) (s s2 : RState V) (op : Operation V),
      handleOpMsg B s op = some s2 → ∀ k, (s.rep.store k).isSome →
        (s2.rep.store k).isSome) ∧
    (∀ (B : Int) (s s2 : RState V) (op : Operation V),
      injectOp B s op = some s2 → ∀ k, (s.rep.store k).isSome →
        (s2.rep.store k).isSome) ∧
    (∀ (r : Replica V) (oid status : String),
      (r.handleAck oid status).store = r.store) ∧
    (∀ (r : Replica V), r.handleDigest.store = r.store) ∧
    (∀ (r : Replica V) (idx : List (String × Operation V)) (f th : Nat)
      (hp : Bool), (r.rumorTick idx f th hp).store = r.store) ∧
    (∀ (r : Replica V) (oid : String) (b : Int),
      (r.activate_rumor oid b).store = r.store) ∧
    (∀ (r : Replica V) (op : Operation V), op.op = "DEL" → newerP r op →
      r.apply op = some (applyUpd r op, true) ∧
        (applyUpd r op).store op.key = some ⟨none, true, op.ts⟩) := by
  refine ⟨fun r r2 op c h k hk => apply_store_isSome h k hk,
    fun r r2 op w c h k hk => on_receive_store_isSome h k hk,
    fun r items k hk => handleRecords_store_isSome items r k hk,
    fun B s s2 op h k hk => handleOpMsg_store_isSome h k hk,
    fun B s s2 op h k hk => injectOp_store_isSome h k hk,
    fun r oid status => handleAck_store r oid status,
    fun r => handleDigest_store r,
    fun r idx f th hp => rumorTick_store r idx f th hp,
    fun r oid b => activate_rumor_store r oid b,
    fun r op hdel hn => ?_⟩
  have hne : op.op ≠ "SET" := by
    rw [hdel]
    decide
  refine ⟨apply_newer (Or.inr hdel) hn, ?_⟩
  simp [applyUpd, storeSet_self, opRecord, hne]

def cw10Rep : Replica String :=
  ⟨"R3", fun k => if k = "d" then some ⟨some "z", false, ⟨1, "A"⟩⟩ else none,
   [], [], [], 0, 0, 0⟩

def cw10Op : Operation String :=
  ⟨"R3:1", "DEL", "d", none, ⟨2, "A"⟩, "R3"⟩

theorem claim_c10_witness :
    ((cw10Rep.handleRecords []).store "d").isSome ∧
    cw10Rep.apply cw10Op = some (applyUpd cw10Rep cw10Op, true) := by
  constructor
  · exact (claim_c10_keys_monotone (V := String)).2.2.1 cw10Rep [] "d" rfl
  · refine ((claim_c10_keys_monotone (V := String)).2.2.2.2.2.2.2.2.2
      cw10Rep cw10Op rfl ?_).1
    intro cur h
    simp [cw10Rep] at h
    rw [← h.2]
    decide

def cx7Rep : Replica String :=
  ⟨"R4", fun _ => none, [], [], [], 0, 0, 0⟩

/-- C7 counterexample: a `SEEN` ACK for an op id that is not in
`active_rumors` (here the map is empty, the rumor never active) still
creates and increments a seen-hit counter entry, so the replica state
is not left unchanged. -/
theorem claim_c7_counterexample :
    cx7Rep.active_rumors = [] ∧
    (cx7Rep.handleAck "x" "SEEN").rumor_already_seen_hits = [("x", 1)] ∧
    (cx7Rep.handleAck "x" "SEEN").rumor_already_seen_hits ≠
      cx7Rep.rumor_already_seen_hits := by
  refine ⟨rfl, rfl, ?_⟩
  decide

/-- C7 (amended): handling `ACK{status=SEEN}` increments
`rumor_already_seen_hits[op_id]` by one — creating the entry at 1 if
absent — whether or not `op_id` is in `active_rumors`, and changes no
other field; an ACK with any other status changes nothing. -/
theorem claim_c7_ack_seen_hits {V : Type} (r : Replica V)
    (op_id status : String) :
    (status = "SEEN" →
      r.handleAck op_id status =
        { r with rumor_already_seen_hits :=
            (alSet r.rumor_already_seen_hits op_id
              ((alGet r.rumor_already_seen_hits op_id).getD 0 + 1)) } ∧
      alGet (r.handleAck op_id status).rumor_already_seen_hits op_id =
        some ((alGet r.rumor_already_seen_hits op_id).getD 0 + 1)) ∧
    (status ≠ "SEEN" → r.handleAck op_id status = r) := by
  constructor
  · intro h
    constructor
    · unfold Replica.handleAck
      rw [if_pos h]
    · unfold Replica.handleAck
      rw [if_pos h]
      exact alGet_alSet_self _ _ _
  · intro h
    unfold Replica.handleAck
    rw [if_neg h]

def cw7Rep : Replica String :=
  ⟨"R5", fun _ => none, [], [("y", 2)], [("y", 3)], 0, 0, 0⟩

theorem claim_c7_witness :
    alGet (cw7Rep.handleAck "y" "SEEN").rumor_already_seen_hits "y" =
      some 4 := by
  have h := (claim_c7_ack_seen_hits cw7Rep "y" "SEEN").1 rfl
  rw [h.2]
  rfl

def cx2Rec : Record String := ⟨some "v", false, ⟨1, "A"⟩⟩

/-- C2: `residue` is order-dependent where the claim says it must not
be. With key `"k"` absent at the first replica and present at the
second, the Python `None` used as the "absent" sentinel collides with
the loop's unset-baseline marker `None`, so the key is skipped and the
result is 0; with the same two stores swapped the result is 1. -/
theorem claim_c2_residue_misses_absent_first :
    residue ([[], [("k", cx2Rec)]] : List (StoreL String)) = 0 ∧
    residue ([[("k", cx2Rec)], []] : List (StoreL String)) = 1 ∧
    (unionKeys ([[], [("k", cx2Rec)]] : List (StoreL String)) =
      unionKeys ([[("k", cx2Rec)], []] : List (StoreL String))) := by
  refine ⟨rfl, rfl, ?_⟩
  decide

theorem on_receive_active {V : Type} [DecidableEq V] {r r2 : Replica V}
    {op : Operation V} {w c : Bool}
    (h : r.on_receive op = some (r2, w, c)) :
    r2.active_rumors = r.active_rumors ∧
    r2.rumor_already_seen_hits = r.rumor_already_seen_hits := by
  by_cases hs : op.op_id ∈ r.seen_ops
  · rw [on_receive_seen hs] at h
    obtain ⟨rfl, rfl, rfl⟩ :
        ({ r with ops_received := r.ops_received + 1 } : Replica V) = r2 ∧
        false = w ∧ false = c := by simpa using h
    exact ⟨rfl, rfl⟩
  · rw [on_receive_new hs] at h
    rcases ha : (recvPre r op).apply op with _ | ⟨r3, ch⟩ <;>
      simp only [ha] at h
    · exact Option.noConfusion h
    · obtain ⟨rfl, rfl, rfl⟩ : r3 = r2 ∧ true = w ∧ ch = c := by simpa using h
      obtain ⟨-, h2, h3, -⟩ := apply_frame ha
      exact ⟨h2, h3⟩

theorem activate_rumor_mem {V : Type} {r : Replica V} {oid : String}
    {b : Int} {p : String × Int}
    (hp : p ∈ (r.activate_rumor oid b).active_rumors) :
    p ∈ r.active_rumors ∨ p = (oid, b) := by
  unfold Replica.activate_rumor at hp
  by_cases h : (alGet r.active_rumors oid).isSome
  · rw [if_pos h] at hp
    exact Or.inl hp
  · rw [if_neg h] at hp
    exact alSet_mem hp

theorem tickOne_entry_ok {V : Type} {idx : List (String × Operation V)}
    {f th : Nat} {r : Replica V} {oid : String}
    (hr : ∀ p ∈ r.active_rumors, 0 ≤ p.2 ∧ (alGet idx p.1).isSome) :
    ∀ p ∈ (tickOne idx f th r oid).active_rumors,
      0 ≤ p.2 ∧ (alGet idx p.1).isSome := by
  intro p hp
  unfold tickOne at hp
  rcases hb : alGet r.active_rumors oid with _ | budget <;>
    simp only [hb] at hp
  · exact hr p hp
  · by_cases hle : budget ≤ 0
    · rw [if_pos hle] at hp
      exact hr p (alPop_subset hp)
    · rw [if_neg hle] at hp
      rcases hidx : alGet idx oid with _ | val <;> simp only [hidx] at hp
      · exact hr p (alPop_subset hp)
      · by_cases hth : th ≤ (alGet r.rumor_already_seen_hits oid).getD 0 <;>
          simp only [if_pos, if_neg, hth, if_true, if_false, reduceIte] at hp
        · rcases alSet_mem (alPop_subset hp) with h | h
          · exact hr p h
          · subst h
            refine ⟨by omega, by simp [hidx]⟩
        · rcases alSet_mem hp with h | h
          · exact hr p h
          · subst h
            refine ⟨by omega, by simp [hidx]⟩

theorem foldl_tickOne_entry_ok {V : Type} {idx : List (String × Operation V)}
    {f th : Nat} :
    ∀ (keys : List String) (r : Replica V),
      (∀ p ∈ r.active_rumors, 0 ≤ p.2 ∧ (alGet idx p.1).isSome) →
      ∀ p ∈ (keys.foldl (tickOne idx f th) r).active_rumors,
        0 ≤ p.2 ∧ (alGet idx p.1).isSome := by
  intro keys
  induction keys with
  | nil => intro r hr; exact hr
  | cons oid rest ih =>
      intro r hr
      exact ih (tickOne idx f th r oid) (tickOne_entry_ok hr)

theorem rumorTick_entry_ok {V : Type} {idx : List (String × Operation V)}
    {f th : Nat} {r : Replica V} {hp : Bool}
    (hr : ∀ p ∈ r.active_rumors, 0 ≤ p.2 ∧ (alGet idx p.1).isSome) :
    ∀ p ∈ (r.rumorTick idx f th hp).active_rumors,
      0 ≤ p.2 ∧ (alGet idx p.1).isSome := by
  unfold Replica.rumorTick
  split
  · exact foldl_tickOne_entry_ok _ r hr
  · exact hr

theorem handleOpMsg_inv {V : Type} [DecidableEq V] {B : Int}
    {s s2 : RState V} {op : Operation V} (hB : 0 ≤ B)
    (h : handleOpMsg B s op = some s2) (hinv : rumorInv s) : rumorInv s2 := by
  unfold handleOpMsg at h
  rcases h1 : s.rep.on_receive op with _ | ⟨r1, wasNew, ch⟩ <;>
    simp only [h1] at h
  · exact Option.noConfusion h
  · obtain ⟨hact, -⟩ := on_receive_active h1
    cases wasNew <;> simp only [Bool.false_eq_true, if_true, if_false,
      reduceIte] at h
    · obtain rfl : (⟨{ r1 with ops_sent := r1.ops_sent + 1 },
          s.opIndex⟩ : RState V) = s2 := by simpa using h
      intro p hp
      refine hinv p ?_
      rw [← hact]
      exact hp
    · obtain rfl : (⟨({ r1 with ops_sent := r1.ops_sent + 1 } :
          Replica V).activate_rumor op.op_id B,
          if (alGet s.opIndex op.op_id).isSome then s.opIndex
          else alSet s.opIndex op.op_id op⟩ : RState V) = s2 := by
        simpa using h
      intro p hp
      rcases activate_rumor_mem hp with hmem | hmem
      · have hold : p ∈ s.rep.active_rumors := by
          rw [← hact]
          exact hmem
        obtain ⟨hge, hsome⟩ := hinv p hold
        refine ⟨hge, ?_⟩
        by_cases hidx : (alGet s.opIndex op.op_id).isSome
        · simpa [hidx] using hsome
        · simp only [hidx, if_false, reduceIte]
          exact alGet_isSome_alSet _ _ _ hsome
      · subst hmem
        refine ⟨hB, ?_⟩
        by_cases hidx : (alGet s.opIndex op.op_id).isSome
        · simp [hidx]
        · simp only [hidx, if_false, reduceIte]
          simp [alGet_alSet_self]

theorem injectOp_inv {V : Type} [DecidableEq V] {B : Int}
    {s s2 : RState V} {op : Operation V} (hB : 0 ≤ B)
    (h : injectOp B s op = some s2) (hinv : rumorInv s) : rumorInv s2 := by
  unfold injectOp at h
  rcases h1 : s.rep.on_receive op with _ | ⟨r1, wasNew, ch⟩ <;>
    simp only [h1] at h
  · exact Option.noConfusion h
  · obtain ⟨hact, -⟩ := on_receive_active h1
    cases wasNew <;> simp only [Bool.false_eq_true, if_true, if_false,
      reduceIte] at h
    · obtain rfl : (⟨r1, s.opIndex⟩ : RState V) = s2 := by simpa using h
      intro p hp
      refine hinv p ?_
      rw [← hact]
      exact hp
    · obtain rfl : (⟨r1.activate_rumor op.op_id B,
          alSet s.opIndex op.op_id op⟩ : RState V) = s2 := by simpa using h
      intro p hp
      rcases activate_rumor_mem hp with hmem | hmem
      · have hold : p ∈ s.rep.active_rumors := by
          rw [← hact]
          exact hmem
        obtain ⟨hge, hsome⟩ := hinv p hold
        exact ⟨hge, alGet_isSome_alSet _ _ _ hsome⟩
      · subst hmem
        refine ⟨hB, ?_⟩
        simp [alGet_alSet_self]

theorem rstep_inv {V : Type} [DecidableEq V] {B : Int} {f th : Nat}
    {s s2 : RState V} (hB : 0 ≤ B) (hstep : RStep B f th s s2)
    (hinv : rumorInv s) : rumorInv s2 := by
  cases hstep with
  | activate oid b hb hidx =>
      intro p hp
      rcases activate_rumor_mem hp with h | h
      · exact hinv p h
      · subst h
        exact ⟨hb, hidx⟩
  | tick hasPeers =>
      intro p hp
      exact rumorTick_entry_ok (fun q hq => hinv q hq) p hp
  | opMsg s2 op h => exact handleOpMsg_inv hB h hinv
  | inject s2 op h => exact injectOp_inv hB h hinv
  | ack oid status =>
      intro p hp
      refine hinv p ?_
      have heq : (s.rep.handleAck oid status).active_rumors =
          s.rep.active_rumors := by
        unfold Replica.handleAck
        split <;> rfl
      rw [← heq]
      exact hp
  | digest =>
      intro p hp
      exact hinv p hp
  | records items =>
      intro p hp
      refine hinv p ?_
      obtain ⟨-, hrec, -⟩ := handleRecords_frame items s.rep
      rw [← hrec]
      exact hp

/-- C6 (amended): along any run of rumor ticks, message handlings and
activations in which every activation uses a nonnegative budget and an
op id already present in `op_index` (as the scheduler and the OP
handler do whenever the configured budget is nonnegative), every entry
of `active_rumors` has a nonnegative budget and its operation is in
`op_index`. Strict positivity fails: after a tick an entry may sit at
budget exactly 0 until the next tick retires it. -/
theorem claim_c6_rumor_invariant {V : Type} [DecidableEq V] {B : Int}
    {f th : Nat} {s0 s : RState V} (hB : 0 ≤ B) (hinv : rumorInv s0)
    (hreach : RReach B f th s0 s) : rumorInv s := by
  induction hreach with
  | refl => exact hinv
  | step t u hr hstep ih => exact rstep_inv hB hstep ih

def cx6Op : Operation String :=
  ⟨"x", "SET", "k", some "v", ⟨1, "R0"⟩, "R0"⟩

def cx6S0 : RState String :=
  ⟨⟨"R0", fun _ => none, [], [], [], 0, 0, 0⟩, [("x", cx6Op)]⟩

def cx6S1 : RState String :=
  ⟨cx6S0.rep.activate_rumor "x" 1, cx6S0.opIndex⟩

def cx6S2 : RState String :=
  ⟨cx6S1.rep.rumorTick cx6S1.opIndex 1 4 true, cx6S1.opIndex⟩

/-- C6 counterexample: from a state satisfying the claimed invariant,
activating a rumor with budget 1 (indexed, positive budget — exactly
what the scheduler may do with `--rumor_budget 1`) and running one
rumor tick reaches a state whose `active_rumors` still holds the entry
with budget exactly 0, violating strict positivity. -/
theorem claim_c6_counterexample :
    RReach 30 1 4 cx6S0 cx6S2 ∧ rumorInvStrict cx6S0 ∧
    alGet cx6S2.rep.active_rumors "x" = some 0 ∧
    ¬ rumorInvStrict cx6S2 := by
  refine ⟨?_, ?_, rfl, ?_⟩
  · exact RReach.step _ _ _
      (RReach.step _ _ _ (RReach.refl _)
        (RStep.activate cx6S0 "x" 1 (by decide) rfl))
      (RStep.tick cx6S1 true)
  · intro p hp
    simp [cx6S0] at hp
  · intro h
    have hmem : ("x", (0 : Int)) ∈ cx6S2.rep.active_rumors := by decide
    have := (h ("x", 0) hmem).1
    exact absurd this (by decide)

theorem claim_c6_witness : rumorInv cx6S2 := by
  have hreach : RReach 30 1 4 cx6S0 cx6S2 :=
    RReach.step _ _ _
      (RReach.step _ _ _ (RReach.refl _)
        (RStep.activate cx6S0 "x" 1 (by decide) rfl))
      (RStep.tick cx6S1 true)
  refine claim_c6_rumor_invariant (by decide) ?_ hreach
  intro p hp
  simp [cx6S0] at hp
